import Mathlib

/-!
Verification of the partitioned price/fundamentals store and derived-metrics
engine of `project_yield`, shallowly embedded from the Python source
(`src/project_yield/data/writer.py`, `data/reader.py`, `analysis/ratios.py`,
`analysis/metrics.py`).  Dates are encoded as `yyyymmdd` natural numbers, so
calendar order is numeric order and the calendar year of a date is `d / 10000`;
monetary values are rationals; nullable dataframe cells are `Option` values;
operations that can raise a Python exception return `Except String`.
-/

namespace ProjectYield

/-- One row of the daily price table (`writer.py` expects columns
date/open/high/low/close/adjusted_close/volume plus the added ticker column;
only the columns the verified claims inspect are carried, the rest behave
identically). -/
structure PriceRow where
  ticker : String
  date : Nat
  close : ℚ
  deriving DecidableEq, Repr

/-- Calendar year of a row, `pl.col("date").dt.year()` in `write_prices` /
`append_prices`. -/
def rowYear (r : PriceRow) : Nat := r.date / 10000

/-- The dates of a list of rows. -/
def dates (l : List PriceRow) : List Nat := l.map (fun r => r.date)

/-- `DataFrame.unique(subset=["date"], keep="last")`: keep, for every date,
only the last occurrence in the sequence. -/
def keepLast : List PriceRow → List PriceRow
  | [] => []
  | r :: rs => if r.date ∈ dates rs then keepLast rs else r :: keepLast rs

/-- The last row of `l` whose date is `d`, if any (later rows take
precedence). -/
def findLast : List PriceRow → Nat → Option PriceRow
  | [], _ => none
  | r :: rs, d =>
    match findLast rs d with
    | some y => some y
    | none => if r.date = d then some r else none

/-- Comparison backing `DataFrame.sort("date")`. -/
def dateLe (a b : PriceRow) : Prop := a.date ≤ b.date

instance : DecidableRel dateLe := fun a b => inferInstanceAs (Decidable (a.date ≤ b.date))

instance : IsTotal PriceRow dateLe := ⟨fun a b => Nat.le_total a.date b.date⟩

instance : IsTrans PriceRow dateLe := ⟨fun _ _ _ h1 h2 => Nat.le_trans h1 h2⟩

/-- `DataFrame.sort("date")` (ascending). -/
def sortByDate (l : List PriceRow) : List PriceRow := List.insertionSort dateLe l

/-- Strict date order; used to identify sorted duplicate-free partitions. -/
def dateLt (a b : PriceRow) : Prop := a.date < b.date

instance : DecidableRel dateLt := fun a b => inferInstanceAs (Decidable (a.date < b.date))

instance : IsAntisymm PriceRow dateLt :=
  ⟨fun _ _ h1 h2 => absurd h1 (Nat.lt_asymm h2)⟩

/-- One iteration of the `append_prices` loop body for a single `(ticker, year)`
partition: if the partition file exists, concatenate, drop duplicate dates
keeping the last occurrence, and sort by date; if it does not exist, sort the
new rows and write them as they are. -/
def mergeYear : Option (List PriceRow) → List PriceRow → List PriceRow
  | some existing, newData => sortByDate (keepLast (existing ++ newData))
  | none, newData => sortByDate newData

/-- A ticker's on-disk price partitions: for each year, the rows of
`prices/ticker=T/year=Y/data.parquet` if that file exists. -/
def PartitionState : Type := Nat → Option (List PriceRow)

/-- `ParquetWriter.append_prices`: for each year present in the batch, merge
the batch rows of that year into the year's partition file; partitions for
years not present in the batch are untouched.  (The empty batch updates
nothing, matching the early return.) -/
def appendPrices (st : PartitionState) (df : List PriceRow) : PartitionState :=
  fun y =>
    let newData := df.filter (fun r => rowYear r = y)
    if newData.isEmpty then st y else some (mergeYear (st y) newData)

/-- The batch used for the C1 counterexample: two rows carrying the same date
(2024-01-05) with different close values. -/
def dupBatch : List PriceRow :=
  [⟨"AAPL", 20240105, 1⟩, ⟨"AAPL", 20240105, 2⟩]

/-- A data directory with no price partition files at all. -/
def emptyPartitions : PartitionState := fun _ => none

/-- Witness batch for the amended C1: two rows with distinct dates. -/
def freshBatch : List PriceRow :=
  [⟨"AAPL", 20240104, 10⟩, ⟨"AAPL", 20240105, 11⟩]

/-- `ParquetWriter.write_prices`: empty input is skipped; otherwise the input
is split by the calendar year of each row's date and one partition file per
distinct year is written, holding the input rows of that year.  The result
lists the written files as (year, file contents). -/
def writePrices (df : List PriceRow) : List (Nat × List PriceRow) :=
  if df.isEmpty then []
  else (df.map rowYear).dedup.map (fun y => (y, df.filter (fun r => rowYear r = y)))

/-- Witness for C5: three rows spanning the two distinct years 2023 and 2024. -/
def twoYearBatch : List PriceRow :=
  [⟨"AAPL", 20231229, 10⟩, ⟨"AAPL", 20240104, 11⟩, ⟨"AAPL", 20240105, 12⟩]

/-! ### Query layer (`data/reader.py`)

A price store is `none` when no parquet file exists under the prices root
(`_has_parquet_files` is false, and `get_prices` returns the empty, column-less
`pl.LazyFrame()`), and `some data` when files exist and scanning them yields
`data`.  Referencing a named column of the column-less frame (sorting by it,
selecting an aggregate of it, filtering on it) raises `ColumnNotFoundError`
at `.collect()`, modelled as `Except.error`. -/

/-- Schema of a scanned price partition (the columns `write_prices` stores). -/
def priceCols : List String :=
  ["date", "open", "high", "low", "close", "adjusted_close", "volume", "ticker", "year"]

/-- A collected polars frame of price rows: the visible columns and the rows.
Projection only restricts which columns a consumer may reference; the
underlying row values are unchanged, so rows keep the full record. -/
structure PriceFrame where
  cols : List String
  rows : List PriceRow
  deriving DecidableEq, Repr

/-- `DataReader.get_prices`: early-return the empty column-less frame when no
parquet files exist; otherwise filter by ticker equality, `date >= start`,
`date <= end` (both inclusive), then project onto
`set(columns) | {"ticker", "date"}` restricted to the available columns
(the polars `set` union is modelled up to duplicate removal). -/
def getPrices (st : Option (List PriceRow)) (ticker : Option String)
    (startDate endDate : Option Nat) (columns : Option (List String)) : PriceFrame :=
  match st with
  | none => ⟨[], []⟩
  | some data =>
    let lf := data
    let lf := match ticker with
      | some t => lf.filter (fun r => r.ticker = t)
      | none => lf
    let lf := match startDate with
      | some d => lf.filter (fun r => d ≤ r.date)
      | none => lf
    let lf := match endDate with
      | some d => lf.filter (fun r => r.date ≤ d)
      | none => lf
    match columns with
    | none => ⟨priceCols, lf⟩
    | some cs => ⟨((cs ++ ["ticker", "date"]).dedup).filter (fun c => c ∈ priceCols), lf⟩

/-- `sort("date", descending=True)` comparison. -/
def dateGe (a b : PriceRow) : Prop := b.date ≤ a.date

instance : DecidableRel dateGe := fun a b => inferInstanceAs (Decidable (b.date ≤ a.date))

instance : IsTotal PriceRow dateGe := ⟨fun a b => Nat.le_total b.date a.date⟩

instance : IsTrans PriceRow dateGe := ⟨fun _ _ _ h1 h2 => Nat.le_trans h2 h1⟩

def sortByDateDesc (l : List PriceRow) : List PriceRow := List.insertionSort dateGe l

/-- The row `get_pe_ratio` prices from: with an as-of date this is
`get_prices(ticker, end_date=as_of)`, otherwise `get_latest_price`; either way
the frame is sorted descending by date and the first row taken.  Sorting by
`"date"` on the column-less no-files frame raises. -/
def priceAsOf (st : Option (List PriceRow)) (tk : String) (asOf : Option Nat) :
    Except String (Option PriceRow) :=
  let f := match asOf with
    | some d => getPrices st (some tk) none (some d) none
    | none => getPrices st (some tk) none none none
  if "date" ∈ f.cols then Except.ok (sortByDateDesc f.rows).head?
  else Except.error "ColumnNotFoundError: date"

/-- `DataReader.get_date_range`: select `min(date)`/`max(date)` over
`get_prices(ticker, columns=["date"])`.  The aggregation always yields one
row (null-valued on empty input), so the `df.is_empty()` branch of the source
is unreachable and the min/max are modelled directly; referencing `date` on
the column-less no-files frame raises. -/
def getDateRange (st : Option (List PriceRow)) (tk : String) :
    Except String (Option Nat × Option Nat) :=
  let f := getPrices st (some tk) none none (some ["date"])
  if "date" ∈ f.cols then Except.ok ((dates f.rows).min?, (dates f.rows).max?)
  else Except.error "ColumnNotFoundError: date"

/-! ### Quarterly fundamentals and TTM (`data/reader.py`) -/

/-- A quarterly statement row.  Statement values are nullable; only the
fields the verified claims inspect are carried (the remaining numeric
statement columns behave exactly like `revenue`). -/
structure QRow where
  ticker : String
  fiscal_period : Nat
  fiscal_year : Nat
  revenue : Option ℚ
  net_income : Option ℚ
  eps : Option ℚ
  shares_outstanding : Option ℚ
  deriving DecidableEq, Repr

/-- The scanned quarterly-fundamentals data: its rows plus which of the
optional columns (`eps`, `shares_outstanding`; §3 of the spec marks them
optional) exist in the schema. -/
structure QTable where
  rows : List QRow
  hasEps : Bool
  hasShares : Bool
  deriving DecidableEq, Repr

/-- `sort("fiscal_period", descending=True)` comparison. -/
def periodGe (a b : QRow) : Prop := b.fiscal_period ≤ a.fiscal_period

instance : DecidableRel periodGe := fun a b =>
  inferInstanceAs (Decidable (b.fiscal_period ≤ a.fiscal_period))

instance : IsTotal QRow periodGe := ⟨fun a b => Nat.le_total b.fiscal_period a.fiscal_period⟩

instance : IsTrans QRow periodGe := ⟨fun _ _ _ h1 h2 => Nat.le_trans h2 h1⟩

def sortByPeriodDesc (l : List QRow) : List QRow := List.insertionSort periodGe l

/-- Quarter selection of `get_ttm_fundamentals`: keep quarters with
`fiscal_period <= as_of_date` (no upper bound when absent), sort descending
by fiscal period, take the first 4. -/
def ttmSelect (rows : List QRow) (asOf : Option Nat) : List QRow :=
  let f := match asOf with
    | some d => rows.filter (fun r => r.fiscal_period ≤ d)
    | none => rows
  (sortByPeriodDesc f).take 4

/-- polars `Series.sum`: nulls are skipped; the sum of an empty or all-null
column is 0. -/
def sumOpt (l : List (Option ℚ)) : ℚ := (l.filterMap id).sum

/-- The TTM result row: one summed value per numeric statement column of the
quarterly data (absent optional columns stay absent), plus the ticker and the
count of quarters summed. -/
structure TTMSnapshot where
  ticker : String
  revenue : ℚ
  net_income : ℚ
  eps : Option ℚ
  shares_outstanding : Option ℚ
  quarters_included : Nat
  deriving DecidableEq, Repr

/-- `DataReader.get_ttm_fundamentals`: with no quarterly parquet files the
column-less frame is sorted by `fiscal_period` (raising at collect);
otherwise filter the ticker, select at most 4 most recent quarters as of the
date, return the empty frame when none remain, else sum every numeric column
(null-skipping) and report the selected quarter count. -/
def getTtmFundamentals (qst : Option QTable) (tk : String) (asOf : Option Nat) :
    Except String (Option TTMSnapshot) :=
  match qst with
  | none => Except.error "ColumnNotFoundError: fiscal_period"
  | some qt =>
    let sel := ttmSelect (qt.rows.filter (fun r => r.ticker = tk)) asOf
    if sel.isEmpty then Except.ok none
    else Except.ok (some {
      ticker := tk
      revenue := sumOpt (sel.map (fun r => r.revenue))
      net_income := sumOpt (sel.map (fun r => r.net_income))
      eps := if qt.hasEps then some (sumOpt (sel.map (fun r => r.eps))) else none
      shares_outstanding :=
        if qt.hasShares then some (sumOpt (sel.map (fun r => r.shares_outstanding)))
        else none
      quarters_included := sel.length })

/-! ### Ratio calculator (`analysis/ratios.py`) -/

/-- `RatioCalculator._get_ttm_eps`: the summed `eps` column when it exists
(its value is then never null, polars sums being null-skipping), else
`net_income / shares_outstanding` when the shares column exists and its
value is positive, else null. -/
def getTtmEps (ttm : TTMSnapshot) : Option ℚ :=
  match ttm.eps with
  | some e => some e
  | none =>
    match ttm.shares_outstanding with
    | some sh => if 0 < sh then some (ttm.net_income / sh) else none
    | none => none

/-- Python `round(x, 2)` on the ratio value (any fixed tie-break works for
the claims; `round` is round-half-up here). -/
def round2 (q : ℚ) : ℚ := ((round (q * 100) : ℤ) : ℚ) / 100

/-- Python `round(x, 4)`. -/
def round4 (q : ℚ) : ℚ := ((round (q * 10000) : ℤ) : ℚ) / 10000

/-- `RatioCalculator.get_pe_ratio`: latest (or as-of) close divided by TTM
EPS, rounded to 2 decimals; null when there is no price row, no TTM data, or
the TTM EPS is null or zero. -/
def getPeRatio (pst : Option (List PriceRow)) (qst : Option QTable)
    (tk : String) (asOf : Option Nat) : Except String (Option ℚ) :=
  match priceAsOf pst tk asOf with
  | Except.error e => Except.error e
  | Except.ok none => Except.ok none
  | Except.ok (some prow) =>
    match getTtmFundamentals qst tk asOf with
    | Except.error e => Except.error e
    | Except.ok none => Except.ok none
    | Except.ok (some snap) =>
      match getTtmEps snap with
      | none => Except.ok none
      | some e =>
        if e = 0 then Except.ok none
        else Except.ok (some (round2 (prow.close / e)))

instance exceptDecidableEq {ε α : Type} [DecidableEq ε] [DecidableEq α] :
    DecidableEq (Except ε α) := fun x y =>
  match x, y with
  | Except.ok a, Except.ok b =>
    if h : a = b then Decidable.isTrue (by rw [h])
    else Decidable.isFalse (fun hc => h (by injection hc))
  | Except.ok _, Except.error _ => Decidable.isFalse (fun hc => Except.noConfusion hc)
  | Except.error _, Except.ok _ => Decidable.isFalse (fun hc => Except.noConfusion hc)
  | Except.error e, Except.error f =>
    if h : e = f then Decidable.isTrue (by rw [h])
    else Decidable.isFalse (fun hc => h (by injection hc))

/-- Two AAPL price rows used by the C2--C4 theorems. -/
def pricesW : List PriceRow := [⟨"AAPL", 20240104, 10⟩, ⟨"AAPL", 20240105, 20⟩]

/-- Five AAPL quarters; the 2024-06-30 quarter has a null revenue. -/
def qRowsW : List QRow :=
  [⟨"AAPL", 20231231, 2023, some 90000, some 9, some 1, some 1000⟩,
   ⟨"AAPL", 20240331, 2024, some 100000, some 10, some 1, some 1000⟩,
   ⟨"AAPL", 20240630, 2024, none, some 11, some 2, some 1000⟩,
   ⟨"AAPL", 20240930, 2024, some 105000, some 12, some 1, some 1000⟩,
   ⟨"AAPL", 20241231, 2024, some 120000, some 13, some 2, some 1000⟩]

/-- The quarterly table with both optional columns present. -/
def qtW : QTable := ⟨qRowsW, true, true⟩

/-- One MSFT price row (a ticker with price data but no fundamentals). -/
def msftPrices : List PriceRow := [⟨"MSFT", 20240105, 20⟩]

/-- Quarterly data whose summed eps is zero. -/
def qtZeroEps : QTable :=
  ⟨[⟨"AAPL", 20240331, 2024, some 100, some 0, some 0, some 1000⟩], true, true⟩

/-- Quarterly data with neither an eps column nor a shares column. -/
def qtNoSources : QTable :=
  ⟨[⟨"AAPL", 20240331, 2024, some 100, some 10, none, none⟩], false, false⟩

/-- Quarterly data with no eps column and a non-positive shares value. -/
def qtNegShares : QTable :=
  ⟨[⟨"AAPL", 20240331, 2024, some 100, some 46, none, some (-5)⟩], false, true⟩

/-- Quarterly data with no eps column, forcing the net-income/shares
fallback. -/
def qtFallback : QTable :=
  ⟨[⟨"AAPL", 20240331, 2024, some 100, some 46, none, some 4000⟩], false, true⟩

/-! ### Batch metrics engine (`analysis/metrics.py`)

`get_all_ratios` touches the file store through many paths; the batch engine
only relies on it returning a dict per ticker or raising.  It is therefore
abstracted as a `compute` function returning `Except` (fallible code), and
the engine's own logic is embedded on top of it.  Only the metric columns
`pe_ratio` and `operating_margin` are carried; the remaining seven numeric
ratio columns behave identically. -/

/-- The dict `RatioCalculator.get_all_ratios` returns (modelled metric
subset). -/
structure RatioSet where
  ticker : String
  as_of_date : String
  pe_ratio : Option ℚ
  operating_margin : Option ℚ
  deriving DecidableEq, Repr

/-- One element of the `results` list built by
`MetricsEngine.calculate_all_ratios`: the ratio dict on success, or the
`{"ticker": t, "error": str(e)}` dict when the ticker's computation raised. -/
inductive BatchEntry where
  | ok (r : RatioSet)
  | err (ticker : String) (msg : String)
  deriving DecidableEq, Repr

/-- `MetricsEngine.calculate_all_ratios`: one entry per ticker, in order; an
exception from one ticker's computation is caught and recorded, never
re-raised. -/
def calculateAllRatios (compute : String → Except String RatioSet)
    (tickers : List String) : List BatchEntry :=
  tickers.map (fun t =>
    match compute t with
    | Except.ok r => BatchEntry.ok r
    | Except.error e => BatchEntry.err t e)

/-- A row of `pl.DataFrame(results)`: dict keys missing from an entry are
null-filled. -/
structure FrameRow where
  ticker : String
  pe_ratio : Option ℚ
  operating_margin : Option ℚ
  error : Option String
  deriving DecidableEq, Repr

/-- `pl.DataFrame(results)` row construction. -/
def toFrame (entries : List BatchEntry) : List FrameRow :=
  entries.map (fun e =>
    match e with
    | BatchEntry.ok r => ⟨r.ticker, r.pe_ratio, r.operating_margin, none⟩
    | BatchEntry.err t m => ⟨t, none, none, some m⟩)

/-- The columns of `pl.DataFrame(results)`: the union of the entry dicts'
keys — the full ratio schema when some ticker succeeded, only
`ticker`/`error` when every entry is an error dict, none when the list is
empty. -/
def batchCols (entries : List BatchEntry) : List String :=
  (if entries.any (fun e => match e with | BatchEntry.ok _ => true | _ => false) then
    ["ticker", "as_of_date", "pe_ratio", "operating_margin"]
   else if entries.isEmpty then [] else ["ticker"]) ++
  (if entries.any (fun e => match e with | BatchEntry.err _ _ => true | _ => false) then
    ["error"] else [])

/-- The numeric (float-typed) metric columns of the batch frame. -/
def numericCols : List String := ["pe_ratio", "operating_margin"]

/-- The value of a numeric metric column in a row. -/
def numVal (r : FrameRow) (c : String) : Option ℚ :=
  if c = "pe_ratio" then r.pe_ratio
  else if c = "operating_margin" then r.operating_margin
  else none

/-- One `filters` item applied as in `screen_stocks`: each present bound is
a separate inclusive polars filter, and a null metric value satisfies
neither comparison. -/
def applyBound (df : List FrameRow) (c : String) (lo hi : Option ℚ) : List FrameRow :=
  let df1 := match lo with
    | some m => df.filter (fun r =>
        match numVal r c with
        | some v => decide (m ≤ v)
        | none => false)
    | none => df
  match hi with
  | some m => df1.filter (fun r =>
      match numVal r c with
      | some v => decide (v ≤ m)
      | none => false)
  | none => df1

/-- The `screen_stocks` filter loop: a name that is not a column of the
frame is skipped with a warning; bounds on a numeric metric column are
applied; a numeric bound on a non-numeric column (e.g. `ticker`) raises a
polars error, modelled as `Except.error`. -/
def screenFilters (cols : List String) :
    List FrameRow → List (String × Option ℚ × Option ℚ) → Except String (List FrameRow)
  | df, [] => Except.ok df
  | df, (c, lo, hi) :: rest =>
    if c ∉ cols then screenFilters cols df rest
    else if c ∈ numericCols then screenFilters cols (applyBound df c lo hi) rest
    else Except.error "ComputeError: numeric bound on a non-numeric column"

/-- `MetricsEngine.screen_stocks`: compute the batch frame, return it
unfiltered when `filters` is `None`, else run the filter loop. -/
def screenStocks (compute : String → Except String RatioSet)
    (filters : Option (List (String × Option ℚ × Option ℚ)))
    (tickers : List String) : Except String (List FrameRow) :=
  let entries := calculateAllRatios compute tickers
  let df := toFrame entries
  match filters with
  | none => Except.ok df
  | some fs => screenFilters (batchCols entries) df fs

/-- What it means for a row to pass one filter item: the name is not a
column (skipped), or each present bound is satisfied by a non-null value. -/
def passesFilter (cols : List String) (r : FrameRow)
    (f : String × Option ℚ × Option ℚ) : Prop :=
  f.1 ∉ cols ∨
    ((∀ m, f.2.1 = some m → ∃ v, numVal r f.1 = some v ∧ m ≤ v) ∧
     (∀ m, f.2.2 = some m → ∃ v, numVal r f.1 = some v ∧ v ≤ m))

/-- `polars.DataFrame.mean` after `drop_nulls`, rounded like
`get_sector_averages`: null when the column has no non-null values. -/
def meanOpt (l : List (Option ℚ)) : Option ℚ :=
  let vs := l.filterMap id
  if vs.isEmpty then none else some (round4 (vs.sum / vs.length))

/-- The mapping `get_sector_averages` returns in the non-degenerate case:
one mean per numeric non-identifier column (omitted when all values are
null) plus the literal requested ticker count. -/
structure SectorAverages where
  pe_ratio : Option ℚ
  operating_margin : Option ℚ
  ticker_count : Nat
  deriving DecidableEq, Repr

/-- `MetricsEngine.get_sector_averages`: the empty batch frame (which arises
exactly for an empty ticker list) returns the empty dict `\x7b\x7d` — modelled
as `none` — with no `ticker_count` key; otherwise one null-skipping mean per
numeric column plus `ticker_count = len(tickers)`. -/
def getSectorAverages (compute : String → Except String RatioSet)
    (tickers : List String) : Option SectorAverages :=
  let df := toFrame (calculateAllRatios compute tickers)
  if df.isEmpty then none
  else some
    { pe_ratio := meanOpt (df.map (fun r => r.pe_ratio))
      operating_margin := meanOpt (df.map (fun r => r.operating_margin))
      ticker_count := tickers.length }

/-- String comparison backing Python `sorted`. -/
def stringLe (a b : String) : Prop := a ≤ b

instance : DecidableRel stringLe := fun a b => inferInstanceAs (Decidable (a ≤ b))

/-- `DataReader.list_tickers`: the sorted tickers of the requested kind's
directory, raising `ValueError` on an unknown kind name. -/
def listTickers (priceTickers quarterlyTickers annualTickers : List String)
    (dataType : String) : Except String (List String) :=
  if dataType = "prices" then Except.ok (List.insertionSort stringLe priceTickers)
  else if dataType = "quarterly" then
    Except.ok (List.insertionSort stringLe quarterlyTickers)
  else if dataType = "annual" then
    Except.ok (List.insertionSort stringLe annualTickers)
  else Except.error ("Unknown data_type: " ++ dataType)

/-- Comparison used by `rank_by_metric`'s sort on a metric column (the rows
are pre-filtered to non-null values, so the default 0 is never consulted). -/
def metricLe (c : String) (a b : FrameRow) : Prop :=
  (numVal a c).getD 0 ≤ (numVal b c).getD 0

instance : DecidableRel (metricLe c) := fun a b =>
  inferInstanceAs (Decidable ((numVal a c).getD 0 ≤ (numVal b c).getD 0))

instance : IsTotal FrameRow (metricLe c) :=
  ⟨fun a b => le_total ((numVal a c).getD 0) ((numVal b c).getD 0)⟩

instance : IsTrans FrameRow (metricLe c) :=
  ⟨fun _ _ _ h1 h2 => le_trans h1 h2⟩

instance : DecidableRel (fun a b => metricLe c b a) := fun a b =>
  inferInstanceAs (Decidable ((numVal b c).getD 0 ≤ (numVal a c).getD 0))

instance : IsTotal FrameRow (fun a b => metricLe c b a) :=
  ⟨fun a b => le_total ((numVal b c).getD 0) ((numVal a c).getD 0)⟩

instance : IsTrans FrameRow (fun a b => metricLe c b a) :=
  ⟨fun _ _ _ h1 h2 => le_trans h2 h1⟩

/-- `MetricsEngine.rank_by_metric`: an unknown metric name is an empty
frame, not an error (in contrast with `list_tickers`); a numeric metric
column is filtered to non-null values, sorted in the requested direction,
1-based ranks attached via `with_row_index("rank", offset=1)`, truncated to
`top_n` after sorting, and projected to (rank, ticker, metric).  Ranking by
one of the non-numeric columns (`ticker` would even be selected twice,
raising `DuplicateError`) is outside the modelled value domain. -/
def rankByMetric (compute : String → Except String RatioSet) (metric : String)
    (tickers : List String) (ascending : Bool) (topN : Option Nat) :
    Except String (List (Nat × String × ℚ)) :=
  let entries := calculateAllRatios compute tickers
  let df := toFrame entries
  if metric ∉ batchCols entries then Except.ok []
  else if metric ∈ numericCols then
    let nn := df.filter (fun r => (numVal r metric).isSome)
    let sorted :=
      if ascending then List.insertionSort (metricLe metric) nn
      else List.insertionSort (fun a b => metricLe metric b a) nn
    let ranked := List.enumFrom 1 sorted
    let cut := match topN with | some n => ranked.take n | none => ranked
    Except.ok (cut.map (fun p => (p.1, p.2.ticker, (numVal p.2 metric).getD 0)))
  else Except.error "rank over a non-numeric column is outside the modelled schema"

/-- A concrete per-ticker computation where ticker BAD raises. -/
def computeOneBad : String → Except String RatioSet := fun t =>
  if t = "BAD" then Except.error "boom"
  else Except.ok ⟨t, "latest", some 10, some 3⟩

/-- The batch of the spec's screen-inclusivity example: PE values 10, 25, 26
and null. -/
def computeScreenExample : String → Except String RatioSet := fun t =>
  if t = "A" then Except.ok ⟨"A", "latest", some 10, some 1⟩
  else if t = "B" then Except.ok ⟨"B", "latest", some 25, some 1⟩
  else if t = "C" then Except.ok ⟨"C", "latest", some 26, some 1⟩
  else Except.ok ⟨"D", "latest", none, some 1⟩

/-- Witness for C10: the spec's rank example — PE values A:30, B:10, C:20,
D:null ranked ascending with top_n 2 gives [B(1,10), C(2,20)]; an unknown
metric gives the empty frame; an unknown kind raises. -/
def computeRankExample : String → Except String RatioSet := fun t =>
  if t = "A" then Except.ok ⟨"A", "latest", some 30, some 1⟩
  else if t = "B" then Except.ok ⟨"B", "latest", some 10, some 1⟩
  else if t = "C" then Except.ok ⟨"C", "latest", some 20, some 1⟩
  else Except.ok ⟨"D", "latest", none, some 1⟩

/-! ## Theorems -/

theorem findLast_eq_none : ∀ (l : List PriceRow) (d : Nat),
    findLast l d = none ↔ d ∉ dates l := by
  intro l
  induction l with
  | nil => intro d; simp [findLast, dates]
  | cons r rs ih =>
    intro d
    rw [findLast]
    cases h : findLast rs d with
    | some y =>
      have hmem : d ∈ dates rs := by
        by_contra hc
        rw [(ih d).mpr hc] at h
        exact Option.noConfusion h
      constructor
      · intro hfalse; exact Option.noConfusion hfalse
      · intro hno
        exact absurd (show d ∈ dates (r :: rs) by
          simp only [dates, List.map_cons, List.mem_cons]
          exact Or.inr hmem) hno
    | none =>
      have hd : d ∉ dates rs := (ih d).mp h
      by_cases hr : r.date = d
      · rw [if_pos hr]
        constructor
        · intro hfalse; exact Option.noConfusion hfalse
        · intro hno
          exact absurd (show d ∈ dates (r :: rs) by
            simp only [dates, List.map_cons, List.mem_cons]
            exact Or.inl hr.symm) hno
      · rw [if_neg hr]
        constructor
        · intro _ hmem
          simp only [dates, List.map_cons, List.mem_cons] at hmem
          rcases hmem with hc | hc
          · exact hr hc.symm
          · exact hd hc
        · intro _; rfl

theorem findLast_append (l₁ l₂ : List PriceRow) (d : Nat) :
    findLast (l₁ ++ l₂) d =
      match findLast l₂ d with
      | some y => some y
      | none => findLast l₁ d := by
  induction l₁ with
  | nil => cases h : findLast l₂ d <;> simp [findLast, h]
  | cons r rs ih =>
    rw [List.cons_append]
    simp only [findLast]
    rw [ih]
    cases h : findLast l₂ d with
    | some y => rfl
    | none => rfl

theorem keepLast_subset {l : List PriceRow} : ∀ {r}, r ∈ keepLast l → r ∈ l := by
  induction l with
  | nil => intro r h; simp [keepLast] at h
  | cons x xs ih =>
    intro r h
    by_cases hx : x.date ∈ dates xs
    · simp only [keepLast, if_pos hx] at h
      exact List.mem_cons_of_mem _ (ih h)
    · simp only [keepLast, if_neg hx, List.mem_cons] at h
      rcases h with h | h
      · exact h ▸ List.mem_cons_self _ _
      · exact List.mem_cons_of_mem _ (ih h)

theorem nodup_dates_keepLast (l : List PriceRow) : (dates (keepLast l)).Nodup := by
  induction l with
  | nil => simp [keepLast, dates]
  | cons x xs ih =>
    by_cases hx : x.date ∈ dates xs
    · simpa [keepLast, hx] using ih
    · rw [keepLast, if_neg hx]
      simp only [dates, List.map_cons, List.nodup_cons]
      refine ⟨fun hc => hx ?_, ih⟩
      simp only [dates, List.mem_map] at hc ⊢
      obtain ⟨r, hr, hrd⟩ := hc
      exact ⟨r, keepLast_subset hr, hrd⟩

theorem keepLast_eq_self {l : List PriceRow} (h : (dates l).Nodup) : keepLast l = l := by
  induction l with
  | nil => rfl
  | cons x xs ih =>
    simp only [dates, List.map_cons, List.nodup_cons] at h
    simp [keepLast, show x.date ∉ dates xs from h.1, ih h.2]

theorem keepLast_append_of_subset : ∀ {l₁ : List PriceRow} {l₂ : List PriceRow},
    (∀ d, d ∈ dates l₁ → d ∈ dates l₂) → keepLast (l₁ ++ l₂) = keepLast l₂ := by
  intro l₁
  induction l₁ with
  | nil => intro l₂ _; rfl
  | cons x xs ih =>
    intro l₂ h
    have hx : x.date ∈ dates (xs ++ l₂) := by
      have : x.date ∈ dates l₂ := h _ (by simp [dates])
      simp only [dates, List.map_append, List.mem_append]
      exact Or.inr this
    rw [List.cons_append, keepLast, if_pos hx]
    exact ih fun d hd => h d (by
      simp only [dates, List.map_cons, List.mem_cons]
      exact Or.inr hd)

theorem findLast_keepLast (l : List PriceRow) (d : Nat) :
    findLast (keepLast l) d = findLast l d := by
  induction l with
  | nil => rfl
  | cons x xs ih =>
    by_cases hx : x.date ∈ dates xs
    · simp only [keepLast, if_pos hx, ih, findLast]
      cases h : findLast xs d with
      | some y => simp
      | none =>
        have hd : d ∉ dates xs := (findLast_eq_none xs d).mp h
        have : x.date ≠ d := fun hc => hd (hc ▸ hx)
        simp [this]
    · simp only [keepLast, if_neg hx, findLast, ih]

theorem mem_dates_of_mem {l : List PriceRow} {r : PriceRow} (h : r ∈ l) :
    r.date ∈ dates l :=
  List.mem_map_of_mem (fun r => r.date) h

theorem findLast_of_nodup : ∀ {l : List PriceRow}, (dates l).Nodup →
    ∀ {d : Nat} {r : PriceRow}, (findLast l d = some r ↔ r ∈ l ∧ r.date = d) := by
  intro l
  induction l with
  | nil => intro _ d r; simp [findLast]
  | cons x xs ih =>
    intro h d r
    simp only [dates, List.map_cons, List.nodup_cons] at h
    have h1 : x.date ∉ dates xs := h.1
    have h2 := h.2
    simp only [findLast, List.mem_cons]
    cases hf : findLast xs d with
    | some y =>
      have hy := (ih h2).mp hf
      constructor
      · intro he
        have : y = r := by simpa using he
        exact this ▸ ⟨Or.inr hy.1, hy.2⟩
      · rintro ⟨hc | hc, hd⟩
        · have hxd : x.date = d := by rw [hc] at hd; exact hd
          have hdx : d ∈ dates xs := by rw [← hy.2]; exact mem_dates_of_mem hy.1
          rw [hxd] at h1
          exact absurd hdx h1
        · have h3 : findLast xs d = some r := (ih h2).mpr ⟨hc, hd⟩
          rw [hf] at h3
          simpa using h3
    | none =>
      have hd : d ∉ dates xs := (findLast_eq_none xs d).mp hf
      by_cases hx : x.date = d
      · simp only [if_pos hx]
        constructor
        · intro he
          have : x = r := by simpa using he
          exact ⟨Or.inl this.symm, this ▸ hx⟩
        · rintro ⟨hc | hc, hrd⟩
          · simp [hc]
          · exact absurd (hrd ▸ mem_dates_of_mem hc) hd
      · simp only [if_neg hx]
        constructor
        · intro he; exact absurd he (by simp)
        · rintro ⟨hc | hc, hrd⟩
          · exact absurd (hc ▸ hrd) hx
          · exact absurd (hrd ▸ mem_dates_of_mem hc) hd

theorem mem_keepLast_iff {l : List PriceRow} {r : PriceRow} :
    r ∈ keepLast l ↔ findLast l r.date = some r := by
  rw [← findLast_keepLast]
  constructor
  · intro h
    exact (findLast_of_nodup (nodup_dates_keepLast l)).mpr ⟨h, rfl⟩
  · intro h
    exact ((findLast_of_nodup (nodup_dates_keepLast l)).mp h).1

theorem dates_perm {l₁ l₂ : List PriceRow} (h : l₁.Perm l₂) : (dates l₁).Perm (dates l₂) := by
  simpa [dates] using h.map (fun r => r.date)

theorem findLast_congr_perm {l₁ l₂ : List PriceRow} (h : l₁.Perm l₂)
    (hn : (dates l₂).Nodup) (d : Nat) : findLast l₁ d = findLast l₂ d := by
  have hn₁ : (dates l₁).Nodup := ((dates_perm h).nodup_iff).mpr hn
  cases hf : findLast l₂ d with
  | some r =>
    have hr := (findLast_of_nodup hn).mp hf
    exact (findLast_of_nodup hn₁).mpr ⟨h.mem_iff.mpr hr.1, hr.2⟩
  | none =>
    have hd : d ∉ dates l₂ := (findLast_eq_none l₂ d).mp hf
    exact (findLast_eq_none l₁ d).mpr fun hc => hd ((dates_perm h).mem_iff.mp hc)

theorem sortByDate_perm (l : List PriceRow) : (sortByDate l).Perm l :=
  List.perm_insertionSort dateLe l

theorem sortByDate_sorted (l : List PriceRow) : (sortByDate l).Sorted dateLe :=
  List.sorted_insertionSort dateLe l

theorem pairwise_dateLt_of_sorted_nodup {l : List PriceRow}
    (hs : l.Sorted dateLe) (hn : (dates l).Nodup) : l.Pairwise dateLt := by
  induction l with
  | nil => exact List.Pairwise.nil
  | cons x xs ih =>
    rw [List.sorted_cons] at hs
    simp only [dates, List.map_cons, List.nodup_cons] at hn
    refine List.Pairwise.cons ?_ (ih hs.2 hn.2)
    intro b hb
    have hle := hs.1 b hb
    have hne : x.date ≠ b.date := fun hc => hn.1 (hc ▸ mem_dates_of_mem hb)
    exact Nat.lt_of_le_of_ne hle hne

theorem eq_of_perm_sorted_nodup {l₁ l₂ : List PriceRow} (hp : l₁.Perm l₂)
    (hs₁ : l₁.Sorted dateLe) (hs₂ : l₂.Sorted dateLe) (hn : (dates l₂).Nodup) :
    l₁ = l₂ := by
  have hn₁ : (dates l₁).Nodup := ((dates_perm hp).nodup_iff).mpr hn
  exact List.eq_of_perm_of_sorted (r := dateLt) hp
    (pairwise_dateLt_of_sorted_nodup hs₁ hn₁) (pairwise_dateLt_of_sorted_nodup hs₂ hn)

theorem nodup_dates_sortByDate {l : List PriceRow} (h : (dates l).Nodup) :
    (dates (sortByDate l)).Nodup :=
  ((dates_perm (sortByDate_perm l)).nodup_iff).mpr h

theorem findLast_mergeYear_some (e nd : List PriceRow) (d : Nat) :
    findLast (mergeYear (some e) nd) d = findLast (e ++ nd) d := by
  show findLast (sortByDate (keepLast (e ++ nd))) d = _
  rw [findLast_congr_perm (sortByDate_perm _) (nodup_dates_keepLast _) d,
    findLast_keepLast]

theorem mergeYear_some_idem (e nd : List PriceRow) :
    mergeYear (some (mergeYear (some e) nd)) nd = mergeYear (some e) nd := by
  set X := mergeYear (some e) nd with hX
  have hXn : (dates X).Nodup := hX ▸ nodup_dates_sortByDate (nodup_dates_keepLast _)
  have hfind : ∀ d, findLast (X ++ nd) d = findLast (e ++ nd) d := by
    intro d
    rw [findLast_append, findLast_append]
    cases h : findLast nd d with
    | some y => rfl
    | none =>
      have : findLast X d = findLast (e ++ nd) d := by
        rw [hX, findLast_mergeYear_some]
      rw [this, findLast_append, h]
  have hperm : (keepLast (X ++ nd)).Perm (keepLast (e ++ nd)) := by
    refine (List.perm_ext_iff_of_nodup ?_ ?_).mpr ?_
    · exact (nodup_dates_keepLast (X ++ nd)).of_map _
    · exact (nodup_dates_keepLast (e ++ nd)).of_map _
    · intro r
      rw [mem_keepLast_iff, mem_keepLast_iff, hfind r.date]
  show sortByDate (keepLast (X ++ nd)) = X
  refine eq_of_perm_sorted_nodup ?_ (sortByDate_sorted _) (hX ▸ sortByDate_sorted _) hXn
  exact ((sortByDate_perm _).trans hperm).trans (hX ▸ (sortByDate_perm _).symm)

theorem mergeYear_none_idem {nd : List PriceRow} (h : (dates nd).Nodup) :
    mergeYear (some (mergeYear none nd)) nd = mergeYear none nd := by
  show sortByDate (keepLast (sortByDate nd ++ nd)) = sortByDate nd
  rw [keepLast_append_of_subset
    (fun d hd => (dates_perm (sortByDate_perm nd)).mem_iff.mp hd),
    keepLast_eq_self h]

theorem mergeYear_idem {nd : List PriceRow} (h : (dates nd).Nodup)
    (o : Option (List PriceRow)) :
    mergeYear (some (mergeYear o nd)) nd = mergeYear o nd := by
  cases o with
  | some e => exact mergeYear_some_idem e nd
  | none => exact mergeYear_none_idem h

theorem nodup_dates_filter {l : List PriceRow} (p : PriceRow → Bool)
    (h : (dates l).Nodup) : (dates (l.filter p)).Nodup := by
  have hsub : (dates (l.filter p)).Sublist (dates l) := by
    simpa [dates] using (List.filter_sublist l (p := p)).map (fun r => r.date)
  exact h.sublist hsub

/-- C1 counterexample: as frozen the claim is false.  Appending a batch that
contains two rows for the same date to an absent partition writes both rows
(the file-absent branch of `append_prices` sorts but does not deduplicate),
so the 2024 partition after one append differs from the partition after two
appends (the second append deduplicates), and the once-appended partition
holds two rows for one date. -/
theorem appendPrices_dup_batch_not_idempotent :
    appendPrices (appendPrices emptyPartitions dupBatch) dupBatch 2024 ≠
      appendPrices emptyPartitions dupBatch 2024 ∧
    appendPrices emptyPartitions dupBatch 2024 =
      some [⟨"AAPL", 20240105, 1⟩, ⟨"AAPL", 20240105, 2⟩] := by
  constructor
  · decide
  · decide

/-- C1 (amended): for every starting partition state and every batch with at
most one row per date, `append_prices` is idempotent, and every partition it
writes is sorted ascending by date, has at most one row per date, and holds
exactly the newest occurrence per date of the concatenation of the old file
contents with the batch rows of that year. -/
theorem appendPrices_idempotent (st : PartitionState) (b : List PriceRow)
    (hb : (dates b).Nodup) :
    appendPrices (appendPrices st b) b = appendPrices st b ∧
    ∀ y, (b.filter (fun r => rowYear r = y)).isEmpty = false →
      ∃ l, appendPrices st b y = some l ∧ l.Sorted dateLe ∧ (dates l).Nodup ∧
        ∀ r, r ∈ l ↔
          findLast ((st y).getD [] ++ b.filter (fun r => rowYear r = y)) r.date = some r := by
  constructor
  · funext y
    show (let newData := b.filter (fun r => rowYear r = y);
      if newData.isEmpty then appendPrices st b y
      else some (mergeYear (appendPrices st b y) newData)) = appendPrices st b y
    set nd := b.filter (fun r => rowYear r = y) with hnd
    by_cases he : nd.isEmpty
    · simp [he]
    · have hndn : (dates nd).Nodup := nodup_dates_filter _ hb
      have hst : appendPrices st b y = some (mergeYear (st y) nd) := by
        show (if nd.isEmpty then st y else some (mergeYear (st y) nd)) = _
        simp [he]
      simp only [he, if_false, hst]
      rw [mergeYear_idem hndn]
      simp
  · intro y hne
    have hndn : (dates (b.filter (fun r => rowYear r = y))).Nodup := nodup_dates_filter _ hb
    have hst : appendPrices st b y =
        some (mergeYear (st y) (b.filter (fun r => rowYear r = y))) := by
      show (if (b.filter (fun r => rowYear r = y)).isEmpty then st y
        else some (mergeYear (st y) (b.filter (fun r => rowYear r = y)))) = _
      simp [hne]
    refine ⟨mergeYear (st y) (b.filter (fun r => rowYear r = y)), hst, ?_, ?_, ?_⟩
    · cases h : st y with
      | some e => exact sortByDate_sorted _
      | none => exact sortByDate_sorted _
    · cases h : st y with
      | some e => exact nodup_dates_sortByDate (nodup_dates_keepLast _)
      | none => exact nodup_dates_sortByDate hndn
    · intro r
      cases h : st y with
      | some e =>
        show r ∈ sortByDate (keepLast (e ++ _)) ↔ _
        rw [(sortByDate_perm _).mem_iff, mem_keepLast_iff]
        simp
      | none =>
        show r ∈ sortByDate _ ↔ _
        rw [(sortByDate_perm _).mem_iff]
        simp only [Option.getD_none, List.nil_append]
        constructor
        · intro hr
          exact (findLast_of_nodup hndn).mpr ⟨hr, rfl⟩
        · intro hr
          exact ((findLast_of_nodup hndn).mp hr).1

/-- Witness for the amended C1 at a concrete state and duplicate-free batch. -/
theorem appendPrices_idempotent_witness :
    appendPrices (appendPrices emptyPartitions freshBatch) freshBatch =
      appendPrices emptyPartitions freshBatch :=
  (appendPrices_idempotent emptyPartitions freshBatch (by decide)).1

/-- C5: writing a non-empty batch produces one file per distinct calendar
year of the input (no two files for the same year), each file holds exactly
the input rows whose date falls in its year, every input row is stored in the
file of its year, and the empty batch writes no files. -/
theorem writePrices_partition_split (df : List PriceRow) :
    writePrices [] = [] ∧
    (df ≠ [] →
      (writePrices df).length = (df.map rowYear).dedup.length ∧
      ((writePrices df).map Prod.fst).Nodup ∧
      (∀ y, y ∈ (writePrices df).map Prod.fst ↔ ∃ r ∈ df, rowYear r = y) ∧
      (∀ p, p ∈ writePrices df →
        p.2 = df.filter (fun r => rowYear r = p.1) ∧ p.2 ≠ []) ∧
      (∀ r ∈ df, ∃ p, p ∈ writePrices df ∧ p.1 = rowYear r ∧ r ∈ p.2)) := by
  refine ⟨rfl, fun hdf => ?_⟩
  have hne : df.isEmpty = false := by
    cases df with
    | nil => exact absurd rfl hdf
    | cons a l => rfl
  have hw : writePrices df =
      (df.map rowYear).dedup.map (fun y => (y, df.filter (fun r => rowYear r = y))) := by
    rw [writePrices, hne]
    rfl
  have hfst : (writePrices df).map Prod.fst = (df.map rowYear).dedup := by
    rw [hw, List.map_map]
    exact List.map_id _
  refine ⟨by rw [hw, List.length_map], hfst ▸ (df.map rowYear).nodup_dedup, ?_, ?_, ?_⟩
  · intro y
    rw [hfst, List.mem_dedup, List.mem_map]
  · intro p hp
    rw [hw, List.mem_map] at hp
    obtain ⟨y, hy, rfl⟩ := hp
    refine ⟨rfl, ?_⟩
    rw [List.mem_dedup, List.mem_map] at hy
    obtain ⟨r, hr, rfl⟩ := hy
    have : r ∈ df.filter (fun s => rowYear s = rowYear r) :=
      List.mem_filter.mpr ⟨hr, by simp⟩
    intro hc
    simp only at hc
    rw [hc] at this
    exact List.not_mem_nil r this
  · intro r hr
    refine ⟨(rowYear r, df.filter (fun s => rowYear s = rowYear r)), ?_, rfl, ?_⟩
    · rw [hw, List.mem_map]
      exact ⟨rowYear r, List.mem_dedup.mpr (List.mem_map_of_mem rowYear hr), rfl⟩
    · exact List.mem_filter.mpr ⟨hr, by simp⟩

theorem writePrices_partition_split_witness :
    twoYearBatch ≠ [] ∧
    (writePrices twoYearBatch).length = (twoYearBatch.map rowYear).dedup.length ∧
    ((writePrices twoYearBatch).map Prod.fst).Nodup ∧
    (∀ y, y ∈ (writePrices twoYearBatch).map Prod.fst ↔ ∃ r ∈ twoYearBatch, rowYear r = y) ∧
    (∀ p, p ∈ writePrices twoYearBatch →
      p.2 = twoYearBatch.filter (fun r => rowYear r = p.1) ∧ p.2 ≠ []) ∧
    (∀ r ∈ twoYearBatch, ∃ p, p ∈ writePrices twoYearBatch ∧ p.1 = rowYear r ∧ r ∈ p.2) :=
  ⟨by decide, (writePrices_partition_split twoYearBatch).2 (by decide)⟩

/-- C4: with no price parquet files at all, `get_date_range` raises
`ColumnNotFoundError` (selecting `min("date")`/`max("date")` on the
column-less empty frame) instead of returning `(None, None)`; when files
exist it does return `(None, None)` for a ticker without rows, and the
correct (min, max) otherwise. -/
theorem getDateRange_no_files_raises :
    getDateRange none "AAPL" = Except.error "ColumnNotFoundError: date" ∧
    getDateRange (some pricesW) "MSFT" = Except.ok (none, none) ∧
    getDateRange (some pricesW) "AAPL" = Except.ok (some 20240104, some 20240105) := by
  refine ⟨by decide, by decide, by decide⟩

/-- Support for C4: whenever price files exist, a ticker with no matching
rows yields `(None, None)` rather than an error. -/
theorem getDateRange_no_rows (data : List PriceRow) (tk : String)
    (h : data.filter (fun r => r.ticker = tk) = []) :
    getDateRange (some data) tk = Except.ok (none, none) := by
  have hr : getPrices (some data) (some tk) none none (some ["date"]) =
      ⟨(((["date"] ++ ["ticker", "date"]).dedup)).filter (fun c => c ∈ priceCols), []⟩ := by
    show (⟨_, data.filter (fun r => r.ticker = tk)⟩ : PriceFrame) = _
    rw [h]
  rw [getDateRange, hr]
  decide

/-- C2: with no quarterly parquet files at all, `get_ttm_fundamentals`
raises `ColumnNotFoundError` (sorting the column-less frame by
`fiscal_period`) instead of returning an empty snapshot.  On existing data
the algorithm behaves as claimed: with five quarters and no as-of date the 4
most recent are selected, a null revenue in one of them is skipped in the
sum (the total is the sum of the 3 non-null revenues) while
`quarters_included` still reports 4; an as-of date keeps only quarters ending
on or before it and fewer than 4 available quarters are summed with the true
count reported; a ticker with no quarters yields the empty snapshot. -/
theorem getTtmFundamentals_no_files_raises :
    getTtmFundamentals none "AAPL" none = Except.error "ColumnNotFoundError: fiscal_period" ∧
    getTtmFundamentals (some qtW) "AAPL" none =
      Except.ok (some ⟨"AAPL", 100000 + 105000 + 120000, 46, some 6, some 4000, 4⟩) ∧
    getTtmFundamentals (some qtW) "AAPL" (some 20240701) =
      Except.ok (some ⟨"AAPL", 90000 + 100000, 30, some 4, some 3000, 3⟩) ∧
    getTtmFundamentals (some qtW) "MSFT" none = Except.ok none := by
  refine ⟨by decide, ?_, ?_, by decide⟩ <;>
    norm_num [getTtmFundamentals, ttmSelect, sortByPeriodDesc, List.insertionSort,
      List.orderedInsert, periodGe, sumOpt, List.filterMap_cons, qtW, qRowsW]

/-- Support for C2: shape of the "4 most recent" step — the kept quarters
are at most four, drawn from the input, sorted descending by fiscal period,
and at least as recent as every input quarter left out. -/
theorem sortTake_spec (f : List QRow) :
    ((sortByPeriodDesc f).take 4).length ≤ 4 ∧
    ((sortByPeriodDesc f).take 4).Sorted periodGe ∧
    (∀ r ∈ (sortByPeriodDesc f).take 4, r ∈ f) ∧
    (∀ r', r' ∈ f → r' ∉ (sortByPeriodDesc f).take 4 →
      ∀ r ∈ (sortByPeriodDesc f).take 4, r'.fiscal_period ≤ r.fiscal_period) := by
  have hsorted : (sortByPeriodDesc f).Sorted periodGe := List.sorted_insertionSort _ _
  refine ⟨List.length_take_le 4 _, hsorted.sublist (List.take_sublist 4 _), ?_, ?_⟩
  · intro r hr
    exact (List.perm_insertionSort periodGe f).mem_iff.mp ((List.take_sublist 4 _).subset hr)
  · intro r' hr' hnot r hr
    have hr'f : r' ∈ sortByPeriodDesc f := (List.perm_insertionSort periodGe f).mem_iff.mpr hr'
    rw [← List.take_append_drop 4 (sortByPeriodDesc f), List.mem_append] at hr'f
    have hr'drop : r' ∈ (sortByPeriodDesc f).drop 4 := by
      rcases hr'f with hc | hc
      · exact absurd hc hnot
      · exact hc
    have hps := hsorted
    rw [← List.take_append_drop 4 (sortByPeriodDesc f)] at hps
    exact (List.pairwise_append.mp hps).2.2 r hr r' hr'drop

/-- Support for C2: the selected quarters all satisfy the as-of bound and
come from the input rows; every eligible row left out is no more recent than
any selected one; at most 4 are selected, in descending period order. -/
theorem ttmSelect_spec (rows : List QRow) (asOf : Option Nat) :
    (ttmSelect rows asOf).length ≤ 4 ∧
    (ttmSelect rows asOf).Sorted periodGe ∧
    (∀ r ∈ ttmSelect rows asOf, r ∈ rows ∧ ∀ d, asOf = some d → r.fiscal_period ≤ d) ∧
    (∀ r', r' ∈ rows → (∀ d, asOf = some d → r'.fiscal_period ≤ d) →
      r' ∉ ttmSelect rows asOf →
      ∀ r ∈ ttmSelect rows asOf, r'.fiscal_period ≤ r.fiscal_period) := by
  cases asOf with
  | none =>
    have h := sortTake_spec rows
    have hsel : ttmSelect rows none = (sortByPeriodDesc rows).take 4 := rfl
    rw [hsel]
    refine ⟨h.1, h.2.1, ?_, ?_⟩
    · intro r hr
      refine ⟨h.2.2.1 r hr, ?_⟩
      intro d hd
      exact absurd hd (by simp)
    · intro r' hr' _ hnot
      exact h.2.2.2 r' hr' hnot
  | some d =>
    have h := sortTake_spec (rows.filter (fun r => r.fiscal_period ≤ d))
    have hsel : ttmSelect rows (some d) =
        (sortByPeriodDesc (rows.filter (fun r => r.fiscal_period ≤ d))).take 4 := rfl
    rw [hsel]
    refine ⟨h.1, h.2.1, ?_, ?_⟩
    · intro r hr
      have hm := List.mem_filter.mp (h.2.2.1 r hr)
      refine ⟨hm.1, ?_⟩
      intro d' hd'
      have : r.fiscal_period ≤ d := by simpa using hm.2
      rw [← Option.some_inj.mp hd']
      exact this
    · intro r' hr' hd hnot
      have hle : r'.fiscal_period ≤ d := hd d rfl
      exact h.2.2.2 r' (List.mem_filter.mpr ⟨hr', by simpa using hle⟩) hnot

/-- Support for C2: the null-skipping sum over a mapped column is the sum of
the non-null values. -/
theorem sumOpt_map {α : Type} (l : List α) (g : α → Option ℚ) :
    sumOpt (l.map g) = (l.filterMap g).sum := by
  simp [sumOpt, List.filterMap_map, Function.comp]

/-- Support for C2: when quarterly files exist, the snapshot is empty exactly
when no quarter is selected, and otherwise each summed column is the
null-skipping sum over the selected quarters and `quarters_included` is the
number of selected quarters. -/
theorem getTtmFundamentals_ok_spec (qt : QTable) (tk : String) (asOf : Option Nat) :
    (getTtmFundamentals (some qt) tk asOf = Except.ok none ↔
      ttmSelect (qt.rows.filter (fun r => r.ticker = tk)) asOf = []) ∧
    ∀ s, getTtmFundamentals (some qt) tk asOf = Except.ok (some s) →
      s.quarters_included =
        (ttmSelect (qt.rows.filter (fun r => r.ticker = tk)) asOf).length ∧
      s.revenue =
        ((ttmSelect (qt.rows.filter (fun r => r.ticker = tk)) asOf).filterMap
          (fun r => r.revenue)).sum ∧
      s.net_income =
        ((ttmSelect (qt.rows.filter (fun r => r.ticker = tk)) asOf).filterMap
          (fun r => r.net_income)).sum := by
  set sel := ttmSelect (qt.rows.filter (fun r => r.ticker = tk)) asOf with hsel
  have hred : getTtmFundamentals (some qt) tk asOf =
      if sel.isEmpty then Except.ok none
      else Except.ok (some {
        ticker := tk
        revenue := sumOpt (sel.map (fun r => r.revenue))
        net_income := sumOpt (sel.map (fun r => r.net_income))
        eps := if qt.hasEps then some (sumOpt (sel.map (fun r => r.eps))) else none
        shares_outstanding :=
          if qt.hasShares then some (sumOpt (sel.map (fun r => r.shares_outstanding)))
          else none
        quarters_included := sel.length }) := rfl
  by_cases he : sel.isEmpty
  · rw [hred, if_pos he]
    refine ⟨by simpa [List.isEmpty_iff] using he, ?_⟩
    intro s hs
    exact absurd hs (by simp)
  · rw [hred, if_neg he]
    refine ⟨by simpa [List.isEmpty_iff] using he, ?_⟩
    intro s hs
    have : s = {
        ticker := tk
        revenue := sumOpt (sel.map (fun r => r.revenue))
        net_income := sumOpt (sel.map (fun r => r.net_income))
        eps := if qt.hasEps then some (sumOpt (sel.map (fun r => r.eps))) else none
        shares_outstanding :=
          if qt.hasShares then some (sumOpt (sel.map (fun r => r.shares_outstanding)))
          else none
        quarters_included := sel.length } := by
      have := hs.symm
      simpa using this
    rw [this]
    exact ⟨rfl, sumOpt_map _ _, sumOpt_map _ _⟩

/-- Support for C3: `_get_ttm_eps` takes the summed eps column when present
(it is then non-null), else divides net income by shares when the shares
column is present with a positive value, and is null otherwise. -/
theorem getTtmEps_spec (s : TTMSnapshot) :
    (∀ e, s.eps = some e → getTtmEps s = some e) ∧
    (s.eps = none → ∀ sh, s.shares_outstanding = some sh → 0 < sh →
      getTtmEps s = some (s.net_income / sh)) ∧
    (s.eps = none → s.shares_outstanding = none → getTtmEps s = none) ∧
    (s.eps = none → ∀ sh, s.shares_outstanding = some sh → ¬0 < sh →
      getTtmEps s = none) := by
  refine ⟨?_, ?_, ?_, ?_⟩
  · intro e he; simp [getTtmEps, he]
  · intro he sh hsh hpos; simp [getTtmEps, he, hsh, hpos]
  · intro he hsh; simp [getTtmEps, he, hsh]
  · intro he sh hsh hpos; simp [getTtmEps, he, hsh, hpos]

/-- Support for C3: `get_pe_ratio` is null when there is no price row, when
there is no TTM data, and when the TTM EPS is null or zero; otherwise it is
the close price divided by the TTM EPS rounded to 2 decimals.  (It never
divides when the EPS is zero, so no infinity can arise.) -/
theorem getPeRatio_null_propagation (pst : Option (List PriceRow))
    (qst : Option QTable) (tk : String) (asOf : Option Nat) :
    (priceAsOf pst tk asOf = Except.ok none →
      getPeRatio pst qst tk asOf = Except.ok none) ∧
    (∀ p, priceAsOf pst tk asOf = Except.ok (some p) →
      getTtmFundamentals qst tk asOf = Except.ok none →
      getPeRatio pst qst tk asOf = Except.ok none) ∧
    (∀ p s, priceAsOf pst tk asOf = Except.ok (some p) →
      getTtmFundamentals qst tk asOf = Except.ok (some s) →
      (getTtmEps s = none ∨ getTtmEps s = some 0) →
      getPeRatio pst qst tk asOf = Except.ok none) ∧
    (∀ p s e, priceAsOf pst tk asOf = Except.ok (some p) →
      getTtmFundamentals qst tk asOf = Except.ok (some s) →
      getTtmEps s = some e → e ≠ 0 →
      getPeRatio pst qst tk asOf = Except.ok (some (round2 (p.close / e)))) := by
  refine ⟨?_, ?_, ?_, ?_⟩
  · intro h; simp [getPeRatio, h]
  · intro p h1 h2; simp [getPeRatio, h1, h2]
  · intro p s h1 h2 h3
    rcases h3 with h3 | h3 <;> simp [getPeRatio, h1, h2, h3]
  · intro p s e h1 h2 h3 h4; simp [getPeRatio, h1, h2, h3, h4]

/-- C3: with no price parquet files at all, `get_pe_ratio` raises
`ColumnNotFoundError` (sorting the column-less frame by `date` inside the
price lookup) instead of returning null.  In every other claimed case it
behaves as stated: null when the ticker has no price row, no TTM data, a
zero TTM EPS (no infinity), no EPS source, or non-positive shares; the close
over the direct summed eps rounded to 2 decimals otherwise; and the
net-income/shares fallback when the eps column is absent. -/
theorem getPeRatio_no_files_raises :
    getPeRatio none (some qtW) "AAPL" none = Except.error "ColumnNotFoundError: date" ∧
    getPeRatio (some msftPrices) (some qtW) "AAPL" none = Except.ok none ∧
    getPeRatio (some msftPrices) (some qtW) "MSFT" none = Except.ok none ∧
    getPeRatio (some pricesW) (some qtZeroEps) "AAPL" none = Except.ok none ∧
    getPeRatio (some pricesW) (some qtNoSources) "AAPL" none = Except.ok none ∧
    getPeRatio (some pricesW) (some qtNegShares) "AAPL" none = Except.ok none ∧
    getPeRatio (some pricesW) (some qtW) "AAPL" none = Except.ok (some (333 / 100)) ∧
    getPeRatio (some pricesW) (some qtFallback) "AAPL" none =
      Except.ok (some (173913 / 100)) := by
  refine ⟨by decide, ?_, ?_, ?_, ?_, ?_, ?_, ?_⟩ <;>
    norm_num [getPeRatio, priceAsOf, getPrices, sortByDateDesc, List.insertionSort,
      List.orderedInsert, dateGe, priceCols, getTtmFundamentals, ttmSelect,
      sortByPeriodDesc, periodGe, sumOpt, List.filterMap_cons, getTtmEps, round2,
      round_eq, pricesW, msftPrices, qtW, qRowsW, qtZeroEps, qtNoSources,
      qtNegShares, qtFallback]

/-- C7: a failing per-ticker computation does not abort the batch: the batch
result has one entry per requested ticker, the failing ticker appears as an
error entry carrying the error text, and every successfully computed ticker
appears with its ratio row. -/
theorem calculateAllRatios_isolates_failures
    (compute : String → Except String RatioSet) (tickers : List String) :
    (calculateAllRatios compute tickers).length = tickers.length ∧
    (∀ t m, t ∈ tickers → compute t = Except.error m →
      BatchEntry.err t m ∈ calculateAllRatios compute tickers) ∧
    (∀ t r, t ∈ tickers → compute t = Except.ok r →
      BatchEntry.ok r ∈ calculateAllRatios compute tickers) := by
  refine ⟨List.length_map _ _, ?_, ?_⟩
  · intro t m ht hm
    have hmem := List.mem_map_of_mem (fun t =>
      match compute t with
      | Except.ok r => BatchEntry.ok r
      | Except.error e => BatchEntry.err t e) ht
    simp only [hm] at hmem
    exact hmem
  · intro t r ht hr
    have hmem := List.mem_map_of_mem (fun t =>
      match compute t with
      | Except.ok r => BatchEntry.ok r
      | Except.error e => BatchEntry.err t e) ht
    simp only [hr] at hmem
    exact hmem

theorem calculateAllRatios_isolates_failures_witness :
    BatchEntry.err "BAD" "boom" ∈ calculateAllRatios computeOneBad ["AAPL", "BAD"] ∧
    BatchEntry.ok ⟨"AAPL", "latest", some 10, some 3⟩ ∈
      calculateAllRatios computeOneBad ["AAPL", "BAD"] :=
  ⟨(calculateAllRatios_isolates_failures computeOneBad ["AAPL", "BAD"]).2.1
      "BAD" "boom" (by decide) rfl,
    (calculateAllRatios_isolates_failures computeOneBad ["AAPL", "BAD"]).2.2
      "AAPL" ⟨"AAPL", "latest", some 10, some 3⟩ (by decide) rfl⟩

theorem loPred_iff {r : FrameRow} {c : String} {m : ℚ} :
    ((match numVal r c with
      | some v => decide (m ≤ v)
      | none => false) = true) ↔ ∃ v, numVal r c = some v ∧ m ≤ v := by
  cases hv : numVal r c <;> simp [hv]

theorem hiPred_iff {r : FrameRow} {c : String} {m : ℚ} :
    ((match numVal r c with
      | some v => decide (v ≤ m)
      | none => false) = true) ↔ ∃ v, numVal r c = some v ∧ v ≤ m := by
  cases hv : numVal r c <;> simp [hv]

/-- Support for C6: membership after one filter item's bounds. -/
theorem mem_applyBound {df : List FrameRow} {c : String} {lo hi : Option ℚ}
    {r : FrameRow} :
    r ∈ applyBound df c lo hi ↔ r ∈ df ∧
      (∀ m, lo = some m → ∃ v, numVal r c = some v ∧ m ≤ v) ∧
      (∀ m, hi = some m → ∃ v, numVal r c = some v ∧ v ≤ m) := by
  cases lo <;> cases hi <;>
    (simp [applyBound, List.mem_filter, loPred_iff, hiPred_iff, and_assoc]; try tauto)

/-- Support for C6: the filter loop never raises when every filter name is a
numeric metric column or not a column at all, and it keeps exactly the rows
passing every filter item. -/
theorem screenFilters_spec (cols : List String) :
    ∀ (fs : List (String × Option ℚ × Option ℚ)),
      (∀ f ∈ fs, f.1 ∈ numericCols ∨ f.1 ∉ cols) →
      ∀ df : List FrameRow, ∃ kept, screenFilters cols df fs = Except.ok kept ∧
        ∀ r, r ∈ kept ↔ r ∈ df ∧ ∀ f ∈ fs, passesFilter cols r f := by
  intro fs
  induction fs with
  | nil =>
    intro _ df
    exact ⟨df, rfl, by simp⟩
  | cons f rest ih =>
    intro h df
    obtain ⟨c, lo, hi⟩ := f
    by_cases hc : c ∈ cols
    · have hnum : c ∈ numericCols := by
        rcases h (c, lo, hi) (List.mem_cons_self _ _) with hn | hn
        · exact hn
        · exact absurd hc hn
      obtain ⟨kept, hk, hmem⟩ :=
        ih (fun g hg => h g (List.mem_cons_of_mem _ hg)) (applyBound df c lo hi)
      refine ⟨kept, ?_, ?_⟩
      · rw [screenFilters, if_neg (not_not_intro hc), if_pos hnum]
        exact hk
      · intro r
        rw [hmem r, mem_applyBound]
        simp only [List.mem_cons, forall_eq_or_imp]
        constructor
        · rintro ⟨⟨hr, hb1, hb2⟩, hrest⟩
          exact ⟨hr, Or.inr ⟨hb1, hb2⟩, hrest⟩
        · rintro ⟨hr, hhead | hhead, hrest⟩
          · exact absurd hc hhead
          · exact ⟨⟨hr, hhead.1, hhead.2⟩, hrest⟩
    · obtain ⟨kept, hk, hmem⟩ := ih (fun g hg => h g (List.mem_cons_of_mem _ hg)) df
      refine ⟨kept, ?_, ?_⟩
      · rw [screenFilters, if_pos hc]
        exact hk
      · intro r
        rw [hmem r]
        simp only [List.mem_cons, forall_eq_or_imp]
        constructor
        · rintro ⟨hr, hrest⟩
          exact ⟨hr, Or.inl hc, hrest⟩
        · rintro ⟨hr, _, hrest⟩
          exact ⟨hr, hrest⟩

/-- C6: for every batch and every filter mapping whose names are metric
columns or unknown, `screen_stocks` returns (without raising) exactly the
rows that satisfy every filter: unknown names are skipped, each present
bound is an inclusive comparison, and a row with a null value in a bounded
metric is dropped. -/
theorem screenStocks_spec (compute : String → Except String RatioSet)
    (tickers : List String) (fs : List (String × Option ℚ × Option ℚ))
    (h : ∀ f ∈ fs, f.1 ∈ numericCols ∨
      f.1 ∉ batchCols (calculateAllRatios compute tickers)) :
    ∃ kept, screenStocks compute (some fs) tickers = Except.ok kept ∧
      ∀ r, r ∈ kept ↔ r ∈ toFrame (calculateAllRatios compute tickers) ∧
        ∀ f ∈ fs, passesFilter (batchCols (calculateAllRatios compute tickers)) r f :=
  screenFilters_spec (batchCols (calculateAllRatios compute tickers)) fs h
    (toFrame (calculateAllRatios compute tickers))

theorem screenStocks_spec_witness :
    screenStocks computeScreenExample (some [("pe_ratio", some 0, some 25)])
      ["A", "B", "C", "D"] =
      Except.ok [⟨"A", some 10, some 1, none⟩, ⟨"B", some 25, some 1, none⟩] ∧
    ∃ kept, screenStocks computeScreenExample (some [("pe_ratio", some 0, some 25)])
        ["A", "B", "C", "D"] = Except.ok kept ∧
      ∀ r, r ∈ kept ↔
        r ∈ toFrame (calculateAllRatios computeScreenExample ["A", "B", "C", "D"]) ∧
        ∀ f ∈ [(("pe_ratio" : String), some (0 : ℚ), some (25 : ℚ))],
          passesFilter
            (batchCols (calculateAllRatios computeScreenExample ["A", "B", "C", "D"]))
            r f :=
  ⟨by decide, screenStocks_spec computeScreenExample ["A", "B", "C", "D"]
    [("pe_ratio", some 0, some 25)] (by decide)⟩

/-- Support for C9: the per-column mean skips nulls and is omitted when the
column has no non-null values. -/
theorem meanOpt_map {α : Type} (l : List α) (g : α → Option ℚ) :
    meanOpt (l.map g) =
      if (l.filterMap g).isEmpty then none
      else some (round4 ((l.filterMap g).sum / (l.filterMap g).length)) := by
  simp [meanOpt, List.filterMap_map, Function.comp]

/-- C9 counterexample: for the empty ticker list the batch frame is empty
and `get_sector_averages` returns the empty dict — there is no
`ticker_count` key at all, while the claim requires `ticker_count = 0`. -/
theorem getSectorAverages_empty_tickers_no_count :
    getSectorAverages computeOneBad [] = none := by decide

/-- C9 (amended): for every non-empty ticker list the result maps
`ticker_count` to the literal number of tickers requested, and each numeric
metric column to the rounded mean of its non-null values (the key being
omitted when every value is null); for the empty ticker list the result is
the empty mapping with no `ticker_count` key. -/
theorem getSectorAverages_counts_requested
    (compute : String → Except String RatioSet) (tickers : List String)
    (h : tickers ≠ []) :
    ∃ s, getSectorAverages compute tickers = some s ∧
      s.ticker_count = tickers.length ∧
      ((((toFrame (calculateAllRatios compute tickers)).filterMap
          (fun r => r.pe_ratio)).isEmpty = true → s.pe_ratio = none) ∧
        (∀ vs, (toFrame (calculateAllRatios compute tickers)).filterMap
            (fun r => r.pe_ratio) = vs → vs.isEmpty = false →
          s.pe_ratio = some (round4 (vs.sum / vs.length)))) ∧
      ((((toFrame (calculateAllRatios compute tickers)).filterMap
          (fun r => r.operating_margin)).isEmpty = true →
            s.operating_margin = none) ∧
        (∀ vs, (toFrame (calculateAllRatios compute tickers)).filterMap
            (fun r => r.operating_margin) = vs → vs.isEmpty = false →
          s.operating_margin = some (round4 (vs.sum / vs.length)))) := by
  have hne : (toFrame (calculateAllRatios compute tickers)).isEmpty = false := by
    cases tickers with
    | nil => exact absurd rfl h
    | cons t ts => rfl
  refine ⟨⟨meanOpt ((toFrame (calculateAllRatios compute tickers)).map
      (fun r => r.pe_ratio)),
    meanOpt ((toFrame (calculateAllRatios compute tickers)).map
      (fun r => r.operating_margin)), tickers.length⟩, ?_, rfl, ?_, ?_⟩
  · show (if (toFrame (calculateAllRatios compute tickers)).isEmpty then none
      else some _) = _
    rw [hne]
    rfl
  · constructor
    · intro hv
      show meanOpt _ = none
      rw [meanOpt_map, if_pos hv]
    · intro vs hvs hv
      show meanOpt _ = _
      rw [meanOpt_map, hvs, if_neg (by rw [hv]; exact Bool.false_ne_true)]
  · constructor
    · intro hv
      show meanOpt _ = none
      rw [meanOpt_map, if_pos hv]
    · intro vs hvs hv
      show meanOpt _ = _
      rw [meanOpt_map, hvs, if_neg (by rw [hv]; exact Bool.false_ne_true)]

theorem getSectorAverages_counts_requested_witness :
    ∃ s, getSectorAverages computeScreenExample ["A", "D"] = some s ∧
      s.ticker_count = (["A", "D"] : List String).length ∧
      ((((toFrame (calculateAllRatios computeScreenExample ["A", "D"])).filterMap
          (fun r => r.pe_ratio)).isEmpty = true → s.pe_ratio = none) ∧
        (∀ vs, (toFrame (calculateAllRatios computeScreenExample ["A", "D"])).filterMap
            (fun r => r.pe_ratio) = vs → vs.isEmpty = false →
          s.pe_ratio = some (round4 (vs.sum / vs.length)))) ∧
      ((((toFrame (calculateAllRatios computeScreenExample ["A", "D"])).filterMap
          (fun r => r.operating_margin)).isEmpty = true →
            s.operating_margin = none) ∧
        (∀ vs, (toFrame (calculateAllRatios computeScreenExample ["A", "D"])).filterMap
            (fun r => r.operating_margin) = vs → vs.isEmpty = false →
          s.operating_margin = some (round4 (vs.sum / vs.length)))) :=
  getSectorAverages_counts_requested computeScreenExample ["A", "D"] (by decide)

/-- Support for C10: an unknown metric name yields the empty frame without
raising, whatever the other arguments. -/
theorem rankByMetric_unknown (compute : String → Except String RatioSet)
    (metric : String) (tickers : List String) (asc : Bool) (topN : Option Nat)
    (h : metric ∉ batchCols (calculateAllRatios compute tickers)) :
    rankByMetric compute metric tickers asc topN = Except.ok [] := by
  simp only [rankByMetric]
  rw [if_pos h]

/-- Support for C10: the contrasting behaviour of `list_tickers` — an
unknown partition-kind name raises `ValueError`. -/
theorem listTickers_unknown_kind (p q a : List String) (d : String)
    (h1 : d ≠ "prices") (h2 : d ≠ "quarterly") (h3 : d ≠ "annual") :
    listTickers p q a d = Except.error ("Unknown data_type: " ++ d) := by
  simp [listTickers, h1, h2, h3]

/-- Support for C10: `top_n` truncation happens after sorting and ranking —
the truncated result is a prefix of the untruncated one. -/
theorem rankByMetric_truncates (compute : String → Except String RatioSet)
    (metric : String) (tickers : List String) (asc : Bool) (n : Nat)
    (out : List (Nat × String × ℚ))
    (h : rankByMetric compute metric tickers asc none = Except.ok out) :
    rankByMetric compute metric tickers asc (some n) = Except.ok (out.take n) := by
  by_cases h1 : metric ∉ batchCols (calculateAllRatios compute tickers)
  · rw [rankByMetric_unknown compute metric tickers asc none h1] at h
    have : out = [] := by simpa using h.symm
    rw [this, rankByMetric_unknown compute metric tickers asc (some n) h1]
    simp
  · by_cases h2 : metric ∈ numericCols
    · simp only [rankByMetric] at h ⊢
      rw [if_neg h1, if_pos h2] at h ⊢
      have hout : out = (List.enumFrom 1
          (if asc then
            List.insertionSort (metricLe metric)
              ((toFrame (calculateAllRatios compute tickers)).filter
                (fun r => (numVal r metric).isSome))
          else
            List.insertionSort (fun a b => metricLe metric b a)
              ((toFrame (calculateAllRatios compute tickers)).filter
                (fun r => (numVal r metric).isSome)))).map
          (fun p => (p.1, p.2.ticker, (numVal p.2 metric).getD 0)) := by
        simpa using h.symm
      rw [hout, ← List.map_take]
    · simp only [rankByMetric] at h
      rw [if_neg h1, if_neg h2] at h
      exact absurd h (by simp)

/-- Support for C10: for a known numeric metric column, the result holds
exactly the rows with a non-null metric value, sorted in the requested
direction, with 1-based sequential ranks. -/
theorem rankByMetric_known (compute : String → Except String RatioSet)
    (metric : String) (tickers : List String) (asc : Bool)
    (h1 : metric ∈ batchCols (calculateAllRatios compute tickers))
    (h2 : metric ∈ numericCols) :
    ∃ out, rankByMetric compute metric tickers asc none = Except.ok out ∧
      out.length = ((toFrame (calculateAllRatios compute tickers)).filter
        (fun r => (numVal r metric).isSome)).length ∧
      (∀ x ∈ out, ∃ r, r ∈ toFrame (calculateAllRatios compute tickers) ∧
        numVal r metric = some x.2.2 ∧ x.2.1 = r.ticker) ∧
      (∀ i, ∀ hi : i < out.length, (out.get ⟨i, hi⟩).1 = i + 1) ∧
      (asc = true → (out.map (fun x => x.2.2)).Sorted (fun a b => a ≤ b)) ∧
      (asc = false → (out.map (fun x => x.2.2)).Sorted (fun a b => b ≤ a)) := by
  set df := (toFrame (calculateAllRatios compute tickers)).filter
    (fun r => (numVal r metric).isSome) with hdf
  set S := (if asc then List.insertionSort (metricLe metric) df
    else List.insertionSort (fun a b => metricLe metric b a) df) with hS
  have hSperm : S.Perm df := by
    rw [hS]
    cases asc with
    | true => exact List.perm_insertionSort _ _
    | false => exact List.perm_insertionSort _ _
  refine ⟨(List.enumFrom 1 S).map (fun p => (p.1, p.2.ticker, (numVal p.2 metric).getD 0)),
    ?_, ?_, ?_, ?_, ?_, ?_⟩
  · simp only [rankByMetric]
    rw [if_neg (not_not_intro h1), if_pos h2]
  · rw [List.length_map, List.enumFrom_length, hSperm.length_eq]
  · intro x hx
    obtain ⟨p, hp, rfl⟩ := List.mem_map.mp hx
    have hp2 : p.2 ∈ S := by
      have : p.2 ∈ (List.enumFrom 1 S).map Prod.snd := List.mem_map_of_mem Prod.snd hp
      simpa using this
    have hmemdf : p.2 ∈ df := hSperm.mem_iff.mp hp2
    rw [hdf, List.mem_filter] at hmemdf
    obtain ⟨v, hv⟩ := Option.isSome_iff_exists.mp (by simpa using hmemdf.2)
    exact ⟨p.2, hmemdf.1, by simp [hv], rfl⟩
  · intro i hi
    rw [List.get_eq_getElem, List.getElem_map, List.getElem_enumFrom]
    simp [Nat.add_comm]
  · intro hasc
    have hsorted : S.Sorted (metricLe metric) := by
      rw [hS, hasc]
      simpa using List.sorted_insertionSort (metricLe metric) df
    have hmap : ((List.enumFrom 1 S).map
        (fun p => (p.1, p.2.ticker, (numVal p.2 metric).getD 0))).map
          (fun x => x.2.2) = S.map (fun r => (numVal r metric).getD 0) := by
      rw [List.map_map]
      have : ((fun x : Nat × String × ℚ => x.2.2) ∘
          (fun p : Nat × FrameRow => (p.1, p.2.ticker, (numVal p.2 metric).getD 0))) =
          (fun r => (numVal r metric).getD 0) ∘ Prod.snd := rfl
      rw [this, ← List.map_map]
      congr 1
      exact List.enumFrom_map_snd 1 S
    rw [hmap, List.Sorted, List.pairwise_map]
    exact hsorted
  · intro hasc
    have hsorted : S.Sorted (fun a b => metricLe metric b a) := by
      rw [hS, hasc]
      simpa using List.sorted_insertionSort (fun a b => metricLe metric b a) df
    have hmap : ((List.enumFrom 1 S).map
        (fun p => (p.1, p.2.ticker, (numVal p.2 metric).getD 0))).map
          (fun x => x.2.2) = S.map (fun r => (numVal r metric).getD 0) := by
      rw [List.map_map]
      have : ((fun x : Nat × String × ℚ => x.2.2) ∘
          (fun p : Nat × FrameRow => (p.1, p.2.ticker, (numVal p.2 metric).getD 0))) =
          (fun r => (numVal r metric).getD 0) ∘ Prod.snd := rfl
      rw [this, ← List.map_map]
      congr 1
      exact List.enumFrom_map_snd 1 S
    rw [hmap, List.Sorted, List.pairwise_map]
    exact hsorted

/-- C10: an unknown metric name gives the empty frame without raising (while
an unknown partition-kind name in `list_tickers` raises `ValueError`); a
known numeric metric gives exactly the non-null rows sorted in the requested
direction with 1-based ranks, and `top_n` truncates the sorted ranking. -/
theorem rankByMetric_error_handling :
    (∀ (compute : String → Except String RatioSet) metric tickers asc topN,
      metric ∉ batchCols (calculateAllRatios compute tickers) →
      rankByMetric compute metric tickers asc topN = Except.ok []) ∧
    (∀ (p q a : List String) d, d ≠ "prices" → d ≠ "quarterly" → d ≠ "annual" →
      listTickers p q a d = Except.error ("Unknown data_type: " ++ d)) ∧
    (∀ (compute : String → Except String RatioSet) metric tickers asc,
      metric ∈ batchCols (calculateAllRatios compute tickers) →
      metric ∈ numericCols →
      ∃ out, rankByMetric compute metric tickers asc none = Except.ok out ∧
        out.length = ((toFrame (calculateAllRatios compute tickers)).filter
          (fun r => (numVal r metric).isSome)).length ∧
        (∀ x ∈ out, ∃ r, r ∈ toFrame (calculateAllRatios compute tickers) ∧
          numVal r metric = some x.2.2 ∧ x.2.1 = r.ticker) ∧
        (∀ i, ∀ hi : i < out.length, (out.get ⟨i, hi⟩).1 = i + 1) ∧
        (asc = true → (out.map (fun x => x.2.2)).Sorted (fun a b => a ≤ b)) ∧
        (asc = false → (out.map (fun x => x.2.2)).Sorted (fun a b => b ≤ a))) ∧
    (∀ (compute : String → Except String RatioSet) metric tickers asc n out,
      rankByMetric compute metric tickers asc none = Except.ok out →
      rankByMetric compute metric tickers asc (some n) = Except.ok (out.take n)) :=
  ⟨fun compute metric tickers asc topN h =>
      rankByMetric_unknown compute metric tickers asc topN h,
    fun p q a d h1 h2 h3 => listTickers_unknown_kind p q a d h1 h2 h3,
    fun compute metric tickers asc h1 h2 =>
      rankByMetric_known compute metric tickers asc h1 h2,
    fun compute metric tickers asc n out h =>
      rankByMetric_truncates compute metric tickers asc n out h⟩

theorem rankByMetric_error_handling_witness :
    rankByMetric computeRankExample "pe_ratio" ["A", "B", "C", "D"] true (some 2) =
      Except.ok [(1, "B", 10), (2, "C", 20)] ∧
    rankByMetric computeRankExample "bogus_metric" ["A", "B", "C", "D"] true none =
      Except.ok [] ∧
    listTickers ["A"] [] [] "nonsense" =
      Except.error ("Unknown data_type: " ++ "nonsense") :=
  ⟨by decide,
    rankByMetric_error_handling.1 computeRankExample "bogus_metric"
      ["A", "B", "C", "D"] true none (by decide),
    rankByMetric_error_handling.2.1 ["A"] [] [] "nonsense"
      (by decide) (by decide) (by decide)⟩

/-- C8 counterexample: with no price parquet files at all, `get_prices`
early-returns the empty `pl.LazyFrame()`, which has no columns — a query
projecting onto `["close"]` then yields a result without `ticker` or `date`,
contradicting "always includes". -/
theorem getPrices_no_files_no_identifying_columns :
    (getPrices none (some "AAPL") none none (some ["close"])).cols = [] ∧
    "ticker" ∉ (getPrices none (some "AAPL") none none (some ["close"])).cols ∧
    "date" ∉ (getPrices none (some "AAPL") none none (some ["close"])).cols := by
  refine ⟨rfl, by decide, by decide⟩

/-- Support for C8: the projected column list of a query against existing
files. -/
theorem getPrices_cols (data : List PriceRow) (tk : Option String)
    (sd ed : Option Nat) (cs : List String) :
    (getPrices (some data) tk sd ed (some cs)).cols =
      ((cs ++ ["ticker", "date"]).dedup).filter (fun c => c ∈ priceCols) := rfl

/-- C8 (amended): whenever at least one price partition file exists, a
projected prices query always includes the identifying columns `ticker` and
`date` even when not requested, and (with or without projection) the rows
kept are exactly the store rows passing the ticker filter and lying within
the inclusive start/end date bounds.  (With no files at all the result is
the empty frame with no columns.) -/
theorem getPrices_projection_and_date_filter (data : List PriceRow)
    (tk : Option String) (sd ed : Option Nat) (cs : List String) :
    "ticker" ∈ (getPrices (some data) tk sd ed (some cs)).cols ∧
    "date" ∈ (getPrices (some data) tk sd ed (some cs)).cols ∧
    ∀ (columns : Option (List String)) (r : PriceRow),
      r ∈ (getPrices (some data) tk sd ed columns).rows ↔
        r ∈ data ∧ (∀ t, tk = some t → r.ticker = t) ∧
        (∀ d, sd = some d → d ≤ r.date) ∧ (∀ d, ed = some d → r.date ≤ d) := by
  refine ⟨?_, ?_, ?_⟩
  · rw [getPrices_cols]
    refine List.mem_filter.mpr ⟨List.mem_dedup.mpr ?_, by decide⟩
    exact List.mem_append_right _ (by decide)
  · rw [getPrices_cols]
    refine List.mem_filter.mpr ⟨List.mem_dedup.mpr ?_, by decide⟩
    exact List.mem_append_right _ (by decide)
  · intro columns r
    cases tk <;> cases sd <;> cases ed <;> cases columns <;>
      simp [getPrices, List.mem_filter] <;> tauto

/-- Witness for the amended C8: requesting only `close` against an existing
store still yields `ticker` and `date`. -/
theorem getPrices_projection_and_date_filter_witness :
    "ticker" ∈ (getPrices (some pricesW) (some "AAPL") none none
      (some ["close"])).cols ∧
    "date" ∈ (getPrices (some pricesW) (some "AAPL") none none
      (some ["close"])).cols ∧
    ∀ (columns : Option (List String)) (r : PriceRow),
      r ∈ (getPrices (some pricesW) (some "AAPL") none none columns).rows ↔
        r ∈ pricesW ∧ (∀ t, (some "AAPL" : Option String) = some t → r.ticker = t) ∧
        (∀ d, (none : Option Nat) = some d → d ≤ r.date) ∧
        (∀ d, (none : Option Nat) = some d → r.date ≤ d) :=
  getPrices_projection_and_date_filter pricesW (some "AAPL") none none ["close"]

end ProjectYield
